import Mathlib

/-!
Shallow embedding of `src/transformers/transformer.py`
(class `InputPVTransformer`) from the lcls-cu-inj-model-deployment
repository, together with theorems settling the specification claims.

Modelling conventions:
* Python/numpy numeric values are modelled over `ℚ` (the claims under
  study concern control flow, shapes, ordering and timestamps, not
  floating-point rounding).
* A numpy `ndarray` is modelled by its shape together with its flat
  data; `ndarray.squeeze()` removes every axis of extent 1.
* `sympy.sympify` is modelled by a tokenizer/recursive-descent parser
  for the arithmetic fragment the configuration formulas use
  (numeric literals, identifiers, `+`, `-`, unary `-`, `*` and
  parentheses), without sympy's automatic algebraic simplification.
* `sympy.lambdify(args, expr)` generates a Python function whose
  parameter list is `args`; a duplicated name in `args` makes the
  generated `def` a `SyntaxError`, and a free symbol of `expr` not
  bound by `args` raises `NameError` when the function is called.
  Both behaviours are embedded below.
* Python exceptions are modelled by `Except String` / `Option`;
  the in-place mutation that `transform` performs on its argument is
  modelled by explicit state passing (`transformFull` returns the
  mutated batch alongside the result).
-/

namespace InputPV

/-- A Python value as it can appear in the `"value"` field of an input
batch entry: a float scalar (also covering `np.float32`/`np.float64`),
an int, a numpy float array (shape with flat data), a flat Python list
of numbers, or a non-numeric value (modelled by a string), which the
type-normalization pass of `transform` rejects. -/
inductive PyVal where
  | num (q : ℚ)
  | int (n : ℤ)
  | arr (shape : List Nat) (data : List ℚ)
  | list (elts : List ℚ)
  | str (s : String)
  deriving DecidableEq, Repr

/-- Name sanitization used throughout `InputPVTransformer`:
`name.replace(':', '_')`, as a character-wise map. -/
def pysanitize (s : String) : String :=
  String.mk (s.data.map (fun c => if c = ':' then '_' else c))

/-- Tokens of the arithmetic formula grammar. -/
inductive Tok where
  | tnum (q : ℚ)
  | tid (s : String)
  | tplus
  | tminus
  | tstar
  | tlparen
  | trparen
  deriving DecidableEq, Repr

/-- First character of an identifier: a letter or underscore. -/
def isIdentStart (c : Char) : Bool :=
  c.isAlpha || c = '_'

/-- Subsequent character of an identifier: a letter, digit or underscore. -/
def isIdentChar (c : Char) : Bool :=
  c.isAlpha || c.isDigit || c = '_'

/-- Value of a list of decimal digit characters. -/
def digitsVal (l : List Char) : Nat :=
  l.foldl (fun a c => 10 * a + (c.toNat - 48)) 0

/-- Rational value of an integer part together with fractional digits. -/
def decimalVal (ip : List Char) (fp : List Char) : ℚ :=
  (digitsVal ip : ℚ) + (digitsVal fp : ℚ) / ((10 : ℚ) ^ fp.length)

/-- Tokenizer for formula text (fuelled; the fuel strictly exceeds the
number of characters, and every step consumes at least one character).
A character outside the grammar (for example `:`) is a parse error. -/
def tokenizeAux : Nat → List Char → Option (List Tok)
  | 0, _ => none
  | _ + 1, [] => some []
  | fuel + 1, c :: cs =>
    if c = ' ' then tokenizeAux fuel cs
    else if c = '+' then (tokenizeAux fuel cs).map (Tok.tplus :: ·)
    else if c = '-' then (tokenizeAux fuel cs).map (Tok.tminus :: ·)
    else if c = '*' then (tokenizeAux fuel cs).map (Tok.tstar :: ·)
    else if c = '(' then (tokenizeAux fuel cs).map (Tok.tlparen :: ·)
    else if c = ')' then (tokenizeAux fuel cs).map (Tok.trparen :: ·)
    else if isIdentStart c then
      let ident := (c :: cs).takeWhile isIdentChar
      let rest := (c :: cs).dropWhile isIdentChar
      (tokenizeAux fuel rest).map (Tok.tid (String.mk ident) :: ·)
    else if c.isDigit then
      let ip := (c :: cs).takeWhile Char.isDigit
      let rest1 := (c :: cs).dropWhile Char.isDigit
      match rest1 with
      | '.' :: cs2 =>
        let fp := cs2.takeWhile Char.isDigit
        let rest2 := cs2.dropWhile Char.isDigit
        (tokenizeAux fuel rest2).map (Tok.tnum (decimalVal ip fp) :: ·)
      | _ => (tokenizeAux fuel rest1).map (Tok.tnum (digitsVal ip : ℚ) :: ·)
    else none

/-- Tokenize a whole string. -/
def tokenize (s : String) : Option (List Tok) :=
  tokenizeAux (s.length + 1) s.data

/-- Symbolic expression tree produced by parsing a formula, the model of
the sympy expression stored in `self.formulas[key]`. -/
inductive Expr where
  | const (q : ℚ)
  | sym (s : String)
  | add (a b : Expr)
  | sub (a b : Expr)
  | mul (a b : Expr)
  | neg (a : Expr)
  deriving DecidableEq, Repr

mutual

/-- Parse an expression: a term followed by `+`/`-` continuations. -/
def parseE : Nat → List Tok → Option (Expr × List Tok)
  | 0, _ => none
  | fuel + 1, ts =>
    match parseT fuel ts with
    | none => none
    | some (e, ts1) => parseERest fuel e ts1

/-- Parse the `+ term` / `- term` continuations of an expression. -/
def parseERest : Nat → Expr → List Tok → Option (Expr × List Tok)
  | 0, _, _ => none
  | fuel + 1, acc, Tok.tplus :: ts =>
    match parseT fuel ts with
    | none => none
    | some (e, ts1) => parseERest fuel (Expr.add acc e) ts1
  | fuel + 1, acc, Tok.tminus :: ts =>
    match parseT fuel ts with
    | none => none
    | some (e, ts1) => parseERest fuel (Expr.sub acc e) ts1
  | _ + 1, acc, ts => some (acc, ts)

/-- Parse a term: a factor followed by `*` continuations. -/
def parseT : Nat → List Tok → Option (Expr × List Tok)
  | 0, _ => none
  | fuel + 1, ts =>
    match parseF fuel ts with
    | none => none
    | some (e, ts1) => parseTRest fuel e ts1

/-- Parse the `* factor` continuations of a term. -/
def parseTRest : Nat → Expr → List Tok → Option (Expr × List Tok)
  | 0, _, _ => none
  | fuel + 1, acc, Tok.tstar :: ts =>
    match parseF fuel ts with
    | none => none
    | some (e, ts1) => parseTRest fuel (Expr.mul acc e) ts1
  | _ + 1, acc, ts => some (acc, ts)

/-- Parse a factor: an optional unary minus applied to an atom. -/
def parseF : Nat → List Tok → Option (Expr × List Tok)
  | 0, _ => none
  | fuel + 1, Tok.tminus :: ts =>
    match parseF fuel ts with
    | none => none
    | some (e, ts1) => some (Expr.neg e, ts1)
  | fuel + 1, ts => parseA fuel ts

/-- Parse an atom: a literal, an identifier or a parenthesised
expression. -/
def parseA : Nat → List Tok → Option (Expr × List Tok)
  | 0, _ => none
  | _ + 1, Tok.tnum q :: ts => some (Expr.const q, ts)
  | _ + 1, Tok.tid s :: ts => some (Expr.sym s, ts)
  | fuel + 1, Tok.tlparen :: ts =>
    match parseE fuel ts with
    | none => none
    | some (e, Tok.trparen :: ts2) => some (e, ts2)
    | some _ => none
  | _ + 1, _ => none

end

/-- Model of `sympy.sympify` on the arithmetic fragment: tokenize, parse
a full expression, and require that every token is consumed. -/
def sympify (s : String) : Option Expr :=
  match tokenize s with
  | none => none
  | some ts =>
    match parseE (4 * ts.length + 4) ts with
    | some (e, []) => some e
    | _ => none

/-- Symbols occurring in a parsed expression. -/
def exprSyms : Expr → List String
  | Expr.const _ => []
  | Expr.sym s => [s]
  | Expr.add a b => exprSyms a ++ exprSyms b
  | Expr.sub a b => exprSyms a ++ exprSyms b
  | Expr.mul a b => exprSyms a ++ exprSyms b
  | Expr.neg a => exprSyms a

/-- One entry of the `input_variables` configuration mapping: the
formula text (the code applies `str(...)` to it) and the optional
`symbols` list; a missing `symbols` key is the `KeyError` branch that
`__init__` logs and skips.  The optional `proto` tag is not read by the
transformer and is omitted. -/
structure ConfigEntry where
  formula : String
  symbols : Option (List String)
  deriving DecidableEq, Repr

/-- The `input_variables` mapping, as an insertion-ordered association
list (Python dicts preserve insertion order; keys are unique). -/
abbrev Config := List (String × ConfigEntry)

/-- The global input-symbol list built by `__init__` (lines 60-65):
`self.input_list.extend(pv_mapping[c]['symbols'])` for every entry that
has a `symbols` key, in declaration order, duplicates kept. -/
def declaredSyms (cfg : Config) : List String :=
  cfg.flatMap (fun kv => kv.2.symbols.getD [])

/-- The message of the exception `_validate_formulas` raises (line 89):
`f'Invalid formula: \x7bformula\x7d: \x7be\x7d'`.  The underlying
sympify error mentions the sanitized text it failed to parse. -/
def invalidFormulaMsg (formula : String) : String :=
  "Invalid formula: " ++ formula ++ ": SympifyError: could not parse "
    ++ pysanitize formula

/-- The message of the `SyntaxError` that `sympy.lambdify` raises when
its argument list contains the same identifier twice (the generated
`def` has a duplicated parameter). -/
def dupArgMsg : String :=
  "SyntaxError: duplicate argument in function definition"

/-- The validation loop of `__init__` (lines 72-73): every formula text
must sympify after sanitization; the first failure raises. -/
def validateLoop : Config → Except String Unit
  | [] => Except.ok ()
  | (_, e) :: rest =>
    match sympify (pysanitize e.formula) with
    | some _ => validateLoop rest
    | none => Except.error (invalidFormulaMsg e.formula)

/-- The compilation loop of `__init__` (lines 76-83): parse each
formula (it already validated, so the parse branch cannot fail here)
and lambdify it against the sanitized global symbol list; a duplicated
sanitized name in that list is a `SyntaxError` from the generated
function definition. -/
def compileLoop (argNames : List String) : Config → Except String (List (String × Expr))
  | [] => Except.ok []
  | (k, e) :: rest =>
    match sympify (pysanitize e.formula) with
    | none => Except.error (invalidFormulaMsg e.formula)
    | some ex =>
      if argNames.Nodup then
        match compileLoop argNames rest with
        | Except.ok l => Except.ok ((k, ex) :: l)
        | Except.error m => Except.error m
      else Except.error dupArgMsg

/-- The compiled transformer: the global input-symbol list (original
naming), the configuration mapping and the compiled formula table.
All three are immutable after construction. -/
structure Transformer where
  input_list : List String
  pv_mapping : Config
  compiled : List (String × Expr)
  deriving DecidableEq, Repr

/-- `InputPVTransformer.__init__` (lines 49-83): build the global
input-symbol list, validate every formula, then parse and lambdify
every formula against the sanitized global symbol list. -/
def init (cfg : Config) : Except String Transformer :=
  let il := declaredSyms cfg
  match validateLoop cfg with
  | Except.error m => Except.error m
  | Except.ok _ =>
    match compileLoop (il.map pysanitize) cfg with
    | Except.error m => Except.error m
    | Except.ok comp => Except.ok ⟨il, cfg, comp⟩

/-- A timestamped input-batch entry `{"value": ..., "posixseconds": ...}`. -/
structure TSVal where
  value : PyVal
  posixseconds : ℤ
  deriving DecidableEq, Repr

/-- An input batch: insertion-ordered mapping of raw PV name to
timestamped value. -/
abbrev Batch := List (String × TSVal)

/-- The per-entry coercion of the type-normalization pass of
`transform` (lines 105-118): floats stay (`float(x)`), ints become
floats, arrays and lists become float arrays (`np.array(x).astype(float)`,
a flat list becoming a rank-1 array), anything else raises. -/
def normalizeVal : PyVal → Option PyVal
  | PyVal.num q => some (PyVal.num q)
  | PyVal.int n => some (PyVal.num (n : ℚ))
  | PyVal.arr s d => some (PyVal.arr s d)
  | PyVal.list l => some (PyVal.arr [l.length] l)
  | PyVal.str _ => none

/-- The type-normalization pass (lines 105-118), which mutates
`input_dict` in place: it returns the batch as left behind by the loop
together with a success flag.  On the first ill-typed value the loop
raises; entries already visited keep their coerced values, the
offending entry and all later ones are untouched. -/
def normalizePass : Batch → Batch × Bool
  | [] => ([], true)
  | (k, tv) :: rest =>
    match normalizeVal tv.value with
    | some v =>
      let (rest', ok) := normalizePass rest
      ((k, { tv with value := v }) :: rest', ok)
    | none => ((k, tv) :: rest, false)

/-- Lookup in a Python dict built by a comprehension with possibly
colliding keys: the last binding of a key wins. -/
def lookupLast (l : List (String × PyVal)) (k : String) : Option PyVal :=
  List.lookup k l.reverse

/-- The sanitized-name value dictionary built at the top of
`_transform` (lines 128-130): `\x7bkey.replace(':', '_'): value["value"]\x7d`. -/
def pvsRenamed (b : Batch) : List (String × PyVal) :=
  b.map (fun kv => (pysanitize kv.1, kv.2.value))

/-- The positional argument list built for every compiled formula
(lines 135-137): for each symbol of the global input list, look its
sanitized name up in the sanitized dictionary; a missing name is a
`KeyError`. -/
def mkArgs (inputList : List String) (pvs : List (String × PyVal)) :
    Option (List PyVal) :=
  inputList.mapM (fun s => lookupLast pvs (pysanitize s))

/-- The environment binding the generated function's parameters (the
sanitized global symbol list) to the positional argument values. -/
def mkEnv (inputList : List String) (pvs : List (String × PyVal)) :
    Option (List (String × PyVal)) :=
  (mkArgs inputList pvs).map (fun vals => (inputList.map pysanitize).zip vals)

/-- Numpy binary arithmetic on the modelled values: scalar with scalar,
scalar broadcast over an array, and elementwise on arrays of equal
shape.  General numpy broadcasting of unequal shapes is not modelled;
such evaluations (and operations on non-normalized values) fail. -/
def applyOp (f : ℚ → ℚ → ℚ) : PyVal → PyVal → Option PyVal
  | PyVal.num a, PyVal.num b => some (PyVal.num (f a b))
  | PyVal.num a, PyVal.arr s d => some (PyVal.arr s (d.map (fun x => f a x)))
  | PyVal.arr s d, PyVal.num b => some (PyVal.arr s (d.map (fun x => f x b)))
  | PyVal.arr s d, PyVal.arr s' d' =>
    if s = s' then some (PyVal.arr s (List.zipWith f d d')) else none
  | _, _ => none

/-- Numpy negation on the modelled values. -/
def applyNeg : PyVal → Option PyVal
  | PyVal.num a => some (PyVal.num (-a))
  | PyVal.arr s d => some (PyVal.arr s (d.map (fun x => -x)))
  | _ => none

/-- Evaluation of a compiled formula body: symbols are looked up among
the generated function's parameters (an unbound symbol is a
`NameError`), constants are numeric scalars, operators are numpy
arithmetic. -/
def evalExpr (env : List (String × PyVal)) : Expr → Option PyVal
  | Expr.const q => some (PyVal.num q)
  | Expr.sym s => List.lookup s env
  | Expr.add a b =>
    (evalExpr env a).bind (fun x => (evalExpr env b).bind (fun y => applyOp (· + ·) x y))
  | Expr.sub a b =>
    (evalExpr env a).bind (fun x => (evalExpr env b).bind (fun y => applyOp (· - ·) x y))
  | Expr.mul a b =>
    (evalExpr env a).bind (fun x => (evalExpr env b).bind (fun y => applyOp (· * ·) x y))
  | Expr.neg a => (evalExpr env a).bind applyNeg

/-- `float(x)` on a scalar evaluation result. -/
def pyFloat : PyVal → Option ℚ
  | PyVal.num q => some q
  | PyVal.int n => some (n : ℚ)
  | _ => none

/-- The result-shaping step of `_transform` (lines 139-143): an array
whose last axis (`shape[-1]`, an `IndexError` on a rank-0 array) has
extent 1 is squeezed — numpy `squeeze()` removes every axis of extent
1 — an array whose last axis has a different extent is untouched, and
a scalar is coerced with `float(...)`. -/
def shapeResult : PyVal → Option PyVal
  | PyVal.arr s d =>
    match s.getLast? with
    | none => none
    | some m =>
      if m = 1 then some (PyVal.arr (s.filter (fun n => n ≠ 1)) d)
      else some (PyVal.arr s d)
  | v => (pyFloat v).map PyVal.num

/-- The per-output loop of `_transform` (lines 132-147): for every
configured output in declaration order, build the positional argument
list, call the compiled formula and shape the result; any failure
aborts the whole call. -/
def evalLoop (inputList : List String) (pvs : List (String × PyVal)) :
    List (String × Expr) → Option (List (String × PyVal))
  | [] => some []
  | (k, ex) :: rest =>
    (mkEnv inputList pvs).bind (fun env =>
      (evalExpr env ex).bind (fun raw =>
        (shapeResult raw).bind (fun v =>
          (evalLoop inputList pvs rest).map (fun out => (k, v) :: out))))

/-- `InputPVTransformer._transform` (lines 126-149): build the
sanitized dictionary and run every compiled formula, returning the
mapping of output name to shaped value.  Note that the returned
entries are bare values; no timestamp is attached anywhere. -/
def runTransform (t : Transformer) (b : Batch) : Option (List (String × PyVal)) :=
  evalLoop t.input_list (pvsRenamed b) t.compiled

/-- `InputPVTransformer.transform` (lines 91-124) with the in-place
mutation of the caller's batch made explicit: the first component is
the batch as the call leaves it (the normalization pass coerces values
in place), the second is the result (`none` models a raised
exception). -/
def transformFull (t : Transformer) (b : Batch) :
    Batch × Option (List (String × PyVal)) :=
  let (b', ok) := normalizePass b
  if ok then (b', runTransform t b') else (b', none)

/-- The batch as the type-normalization pass leaves it when every value
is well typed: every `"value"` field is replaced by its coercion. -/
def normalizedBatch (b : Batch) : Batch :=
  b.map (fun kv => (kv.1, { kv.2 with value := (normalizeVal kv.2.value).getD kv.2.value }))

/-! Concrete configurations, transformers and batches used by the claim
theorems and witnesses. -/

/-- Single passthrough output `OUT = X`. -/
def cfgC1 : Config := [("OUT", ⟨"X", some ["X"]⟩)]

/-- The transformer `init cfgC1` constructs. -/
def tC1 : Transformer := ⟨["X"], cfgC1, [("OUT", Expr.sym "X")]⟩

/-- Batch for `cfgC1`: `X = 3.0` at posix second 100. -/
def batchC1 : Batch := [("X", ⟨PyVal.num 3, 100⟩)]

/-- The configuration of the spec's example scenario:
`A: X + Y` with symbols `[X, Y]`, and `B: 2*X` with no `symbols` key. -/
def cfgC2 : Config := [("A", ⟨"X + Y", some ["X", "Y"]⟩), ("B", ⟨"2*X", none⟩)]

/-- The transformer `init cfgC2` constructs. -/
def tC2 : Transformer :=
  ⟨["X", "Y"], cfgC2,
   [("A", Expr.add (Expr.sym "X") (Expr.sym "Y")),
    ("B", Expr.mul (Expr.const 2) (Expr.sym "X"))]⟩

/-- The raw batch of the example scenario:
`X = 3.0` at 100, `Y = 4.0` at 200. -/
def batchC2 : Batch := [("X", ⟨PyVal.num 3, 100⟩), ("Y", ⟨PyVal.num 4, 200⟩)]

/-- Decidable equality for construction results, used by the concrete
evaluations below. -/
instance : DecidableEq (Except String Transformer)
  | Except.ok a, Except.ok b =>
    if h : a = b then isTrue (by rw [h]) else isFalse (fun he => h (Except.ok.inj he))
  | Except.error a, Except.error b =>
    if h : a = b then isTrue (by rw [h]) else isFalse (fun he => h (Except.error.inj he))
  | Except.ok a, Except.error b => isFalse (fun he => by cases he)
  | Except.error a, Except.ok b => isFalse (fun he => by cases he)

/-- C3 artifacts: the formula references `W`, which is not among the
declared symbols, while the declared symbol `X` is present. -/
def cfgC3 : Config := [("A", ⟨"W", some ["X"]⟩)]

/-- The transformer `init cfgC3` constructs. -/
def tC3 : Transformer := ⟨["X"], cfgC3, [("A", Expr.sym "W")]⟩

/-- Batch covering every symbol declared by `cfgC3`. -/
def batchC3 : Batch := [("X", ⟨PyVal.num 1, 0⟩)]

/-- Configuration for the C3 witness: a passthrough output and an
output whose entry declares no symbols but references `X` (resolvable
through the global symbol list, as in the spec's example). -/
def cfgC3w : Config := [("A", ⟨"X", some ["X"]⟩), ("B", ⟨"X", none⟩)]

/-- The transformer `init cfgC3w` constructs. -/
def tC3w : Transformer :=
  ⟨["X"], cfgC3w, [("A", Expr.sym "X"), ("B", Expr.sym "X")]⟩

/-- Batch for the C3 witness. -/
def batchC3w : Batch := [("X", ⟨PyVal.num 2, 5⟩)]

/-- C4 artifacts: the formula references the undeclared symbol `Z`. -/
def cfgC4 : Config := [("A", ⟨"Z", some ["X"]⟩)]

/-- The transformer `init cfgC4` constructs — construction succeeds. -/
def tC4 : Transformer := ⟨["X"], cfgC4, [("A", Expr.sym "Z")]⟩

/-- Batch covering every declared symbol of `cfgC4`. -/
def batchC4 : Batch := [("X", ⟨PyVal.num 1, 0⟩)]

/-- C5 artifacts: a passthrough formula applied to an array of shape
`(1, 2, 1)` — the last axis has extent 1, and so does a non-trailing
axis. -/
def cfgC5 : Config := [("A", ⟨"X", some ["X"]⟩)]

/-- The transformer `init cfgC5` constructs. -/
def tC5 : Transformer := ⟨["X"], cfgC5, [("A", Expr.sym "X")]⟩

/-- Batch whose value is an array of shape `(1, 2, 1)`. -/
def batchC5 : Batch := [("X", ⟨PyVal.arr [1, 2, 1] [5, 6], 0⟩)]

/-- C5 witness artifacts: an array of shape `(3, 1)`. -/
def tC5w : Transformer :=
  ⟨["Y"], [("B", ⟨"Y", some ["Y"]⟩)], [("B", Expr.sym "Y")]⟩

/-- Batch whose value is an array of shape `(3, 1)`. -/
def batchC5w : Batch := [("Y", ⟨PyVal.arr [3, 1] [7, 8, 9], 0⟩)]

/-- C6 artifacts: a configuration whose single signal name contains the
separator `:`. -/
def cfgC6a : Config := [("A", ⟨"A:B", some ["A:B"]⟩)]

/-- The transformer `init cfgC6a` constructs. -/
def tC6a : Transformer := ⟨["A:B"], cfgC6a, [("A", Expr.sym "A_B")]⟩

/-- C6 collision artifacts: the two distinct declared names `A:B` and
`A_B` sanitize to the same identifier. -/
def cfgC6b : Config := [("A", ⟨"X", some ["A:B", "A_B"]⟩)]

/-- C7 artifacts: the formula text `((` does not parse; the output name
is `OUT1`. -/
def cfgC7 : Config := [("OUT1", ⟨"((", some ["X"]⟩)]

/-- C8 artifacts: the signal `X` is declared by the symbols lists of
both entries. -/
def cfgC8 : Config := [("A", ⟨"X", some ["X"]⟩), ("B", ⟨"2*X", some ["X"]⟩)]

/-- C9 artifacts: a passthrough transformer. -/
def tC9 : Transformer :=
  ⟨["X"], [("P", ⟨"X", some ["X"]⟩)], [("P", Expr.sym "X")]⟩

/-- Batch for the C9 witness. -/
def batchC9 : Batch := [("X", ⟨PyVal.num 4, 7⟩)]

/-- C10 artifacts: a transformer whose formula references the unbound
symbol `Q`, so the transform call fails after the normalization pass. -/
def tC10 : Transformer :=
  ⟨["X"], [("A", ⟨"Q", some ["X"]⟩)], [("A", Expr.sym "Q")]⟩

/-- Batch for the C10 witness: the value is a Python `int`, which the
normalization pass coerces to a float in place. -/
def batchC10 : Batch := [("X", ⟨PyVal.int 5, 11⟩)]

/-! Auxiliary lemmas about the embedded operations. -/

theorem lookup_some_mem {β : Type} {l : List (String × β)} {k : String} {v : β}
    (h : List.lookup k l = some v) : (k, v) ∈ l := by
  induction l with
  | nil => simp [List.lookup] at h
  | cons a l ih =>
    obtain ⟨k', v'⟩ := a
    rw [List.lookup] at h
    cases hbe : (k == k') with
    | true =>
      rw [hbe] at h
      simp only [Option.some.injEq] at h
      exact (beq_iff_eq.mp hbe) ▸ h ▸ List.mem_cons_self _ _
    | false =>
      rw [hbe] at h
      exact List.mem_cons_of_mem _ (ih h)

theorem lookup_mem_keys {β : Type} {l : List (String × β)} {k : String}
    (h : k ∈ l.map Prod.fst) : ∃ v, List.lookup k l = some v := by
  induction l with
  | nil => simp at h
  | cons a l ih =>
    rw [List.map_cons] at h
    rw [List.lookup]
    cases hbe : (k == a.1) with
    | true => exact ⟨a.2, rfl⟩
    | false =>
      rcases List.mem_cons.mp h with h1 | h2
      · exact absurd (beq_iff_eq.mpr h1) (by simp [hbe])
      · exact ih h2

theorem lookup_zip_none {keys : List String} {vals : List PyVal} {s : String}
    (h : s ∉ keys) : List.lookup s (keys.zip vals) = none := by
  induction keys generalizing vals with
  | nil => simp [List.lookup]
  | cons a l ih =>
    cases vals with
    | nil => simp [List.lookup]
    | cons v vs =>
      rw [List.zip_cons_cons, List.lookup]
      have hne : s ≠ a := fun he => h (he ▸ List.mem_cons_self _ _)
      rw [beq_eq_false_iff_ne.mpr hne]
      exact ih (fun hm => h (List.mem_cons_of_mem _ hm))

theorem lookup_zip_mem {keys : List String} {vals : List PyVal} {s : String}
    (h : s ∈ keys) (hlen : keys.length = vals.length) :
    ∃ v, List.lookup s (keys.zip vals) = some v ∧ v ∈ vals := by
  induction keys generalizing vals with
  | nil => simp at h
  | cons a l ih =>
    cases vals with
    | nil => simp at hlen
    | cons v vs =>
      rw [List.zip_cons_cons, List.lookup]
      cases hbe : (s == a) with
      | true => exact ⟨v, rfl, List.mem_cons_self _ _⟩
      | false =>
        have hs : s ∈ l := by
          rcases List.mem_cons.mp h with h1 | h2
          · exact absurd (beq_iff_eq.mpr h1) (by simp [hbe])
          · exact h2
        obtain ⟨w, hw, hwm⟩ := ih hs (by simpa using hlen)
        exact ⟨w, hw, List.mem_cons_of_mem _ hwm⟩

theorem mapM_option_spec {α β : Type} (f : α → Option β) (P : β → Prop) :
    ∀ l : List α, (∀ a ∈ l, ∃ v, f a = some v ∧ P v) →
      ∃ vals, l.mapM f = some vals ∧ vals.length = l.length ∧ ∀ v ∈ vals, P v := by
  intro l
  induction l with
  | nil => exact fun _ => ⟨[], rfl, rfl, by simp⟩
  | cons a l ih =>
    intro h
    obtain ⟨v, hv, hPv⟩ := h a (List.mem_cons_self _ _)
    obtain ⟨vals, hvals, hlen, hP⟩ := ih (fun x hx => h x (List.mem_cons_of_mem _ hx))
    refine ⟨v :: vals, ?_, by simp [hlen], ?_⟩
    · rw [List.mapM_cons, hv, hvals]; rfl
    · intro w hw
      rcases List.mem_cons.mp hw with h1 | h2
      · exact h1 ▸ hPv
      · exact hP _ h2

theorem evalExpr_scalar {env : List (String × PyVal)} :
    ∀ ex : Expr, (∀ s ∈ exprSyms ex, ∃ q : ℚ, List.lookup s env = some (PyVal.num q)) →
      ∃ q : ℚ, evalExpr env ex = some (PyVal.num q) := by
  intro ex
  induction ex with
  | const q => exact fun _ => ⟨q, rfl⟩
  | sym s => exact fun h => h s (by simp [exprSyms])
  | add a b iha ihb =>
    intro h
    obtain ⟨qa, ha⟩ := iha (fun s hs => h s (by simp [exprSyms, hs]))
    obtain ⟨qb, hb⟩ := ihb (fun s hs => h s (by simp [exprSyms, hs]))
    exact ⟨qa + qb, by rw [evalExpr, ha, hb]; rfl⟩
  | sub a b iha ihb =>
    intro h
    obtain ⟨qa, ha⟩ := iha (fun s hs => h s (by simp [exprSyms, hs]))
    obtain ⟨qb, hb⟩ := ihb (fun s hs => h s (by simp [exprSyms, hs]))
    exact ⟨qa - qb, by rw [evalExpr, ha, hb]; rfl⟩
  | mul a b iha ihb =>
    intro h
    obtain ⟨qa, ha⟩ := iha (fun s hs => h s (by simp [exprSyms, hs]))
    obtain ⟨qb, hb⟩ := ihb (fun s hs => h s (by simp [exprSyms, hs]))
    exact ⟨qa * qb, by rw [evalExpr, ha, hb]; rfl⟩
  | neg a iha =>
    intro h
    obtain ⟨qa, ha⟩ := iha (fun s hs => h s (by simp [exprSyms, hs]))
    exact ⟨-qa, by rw [evalExpr, ha]; rfl⟩

theorem evalExpr_unbound {env : List (String × PyVal)} {s : String}
    (hs : List.lookup s env = none) :
    ∀ ex : Expr, s ∈ exprSyms ex → evalExpr env ex = none := by
  intro ex
  induction ex with
  | const q => simp [exprSyms]
  | sym u =>
    intro h
    simp only [exprSyms, List.mem_singleton] at h
    subst h
    exact hs
  | add a b iha ihb =>
    intro h
    rcases List.mem_append.mp (by simpa [exprSyms] using h) with h1 | h2
    · rw [evalExpr, iha h1]; rfl
    · rw [evalExpr, ihb h2]
      cases evalExpr env a <;> rfl
  | sub a b iha ihb =>
    intro h
    rcases List.mem_append.mp (by simpa [exprSyms] using h) with h1 | h2
    · rw [evalExpr, iha h1]; rfl
    · rw [evalExpr, ihb h2]
      cases evalExpr env a <;> rfl
  | mul a b iha ihb =>
    intro h
    rcases List.mem_append.mp (by simpa [exprSyms] using h) with h1 | h2
    · rw [evalExpr, iha h1]; rfl
    · rw [evalExpr, ihb h2]
      cases evalExpr env a <;> rfl
  | neg a iha =>
    intro h
    rw [evalExpr, iha (by simpa [exprSyms] using h)]
    rfl

theorem evalLoop_keys {inputList : List String} {pvs : List (String × PyVal)} :
    ∀ comp out, evalLoop inputList pvs comp = some out →
      out.map Prod.fst = comp.map Prod.fst := by
  intro comp
  induction comp with
  | nil =>
    intro out h
    simp only [evalLoop, Option.some.injEq] at h
    simp [← h]
  | cons a rest ih =>
    intro out h
    obtain ⟨k, ex⟩ := a
    simp only [evalLoop, Option.bind_eq_some, Option.map_eq_some'] at h
    obtain ⟨env, _, raw, _, v, _, out', hout', hcons⟩ := h
    subst hcons
    simp [ih out' hout']

theorem evalLoop_total {inputList : List String} {pvs : List (String × PyVal)}
    {env : List (String × PyVal)} (henv : mkEnv inputList pvs = some env) :
    ∀ comp : List (String × Expr),
      (∀ ke ∈ comp, ∃ v w, evalExpr env ke.2 = some v ∧ shapeResult v = some w) →
      ∃ out, evalLoop inputList pvs comp = some out := by
  intro comp
  induction comp with
  | nil => exact fun _ => ⟨[], rfl⟩
  | cons a rest ih =>
    intro h
    obtain ⟨k, ex⟩ := a
    obtain ⟨v, w, hv, hw⟩ := h (k, ex) (List.mem_cons_self _ _)
    obtain ⟨out, hout⟩ := ih (fun x hx => h x (List.mem_cons_of_mem _ hx))
    refine ⟨(k, w) :: out, ?_⟩
    rw [evalLoop, henv, Option.some_bind, hv, Option.some_bind, hw,
      Option.some_bind, hout]
    rfl

theorem evalLoop_fails {inputList : List String} {pvs : List (String × PyVal)}
    {k : String} {ex : Expr}
    (hfail : ∀ env, mkEnv inputList pvs = some env → evalExpr env ex = none) :
    ∀ comp : List (String × Expr), (k, ex) ∈ comp →
      evalLoop inputList pvs comp = none := by
  intro comp
  induction comp with
  | nil => simp
  | cons a rest ih =>
    intro hmem
    obtain ⟨k0, e0⟩ := a
    rw [evalLoop]
    cases henv : mkEnv inputList pvs with
    | none => rfl
    | some env =>
      rw [Option.some_bind]
      rcases List.mem_cons.mp hmem with h1 | h2
      · obtain ⟨hk, he⟩ := Prod.mk.injEq .. ▸ h1
        rw [← he, hfail env henv]
        rfl
      · cases hev : evalExpr env e0 with
        | none => rfl
        | some raw =>
          rw [Option.some_bind]
          cases shapeResult raw with
          | none => rfl
          | some v =>
            rw [Option.some_bind, ih h2]
            rfl

theorem evalLoop_lookup {inputList : List String} {pvs : List (String × PyVal)} :
    ∀ comp out, evalLoop inputList pvs comp = some out →
      (comp.map Prod.fst).Nodup →
      ∀ k ex env raw v, (k, ex) ∈ comp →
        mkEnv inputList pvs = some env → evalExpr env ex = some raw →
        List.lookup k out = some v → shapeResult raw = some v := by
  intro comp
  induction comp with
  | nil => intro out _ _ k ex env raw v hmem; simp at hmem
  | cons a rest ih =>
    intro out h hnd k ex env raw v hmem henv hev hlk
    obtain ⟨k0, e0⟩ := a
    simp only [evalLoop, Option.bind_eq_some, Option.map_eq_some'] at h
    obtain ⟨env0, henv0, raw0, hev0, v0, hv0, out', hout', hcons⟩ := h
    have henveq : env0 = env := by rw [henv0] at henv; exact Option.some.inj henv
    rw [henveq] at hev0
    subst hcons
    rw [List.map_cons, List.nodup_cons] at hnd
    rcases List.mem_cons.mp hmem with h1 | h2
    · have hk : k = k0 := congrArg Prod.fst h1
      have he : ex = e0 := congrArg Prod.snd h1
      subst hk he
      rw [List.lookup, beq_self_eq_true] at hlk
      have hveq : v0 = v := Option.some.inj hlk
      rw [hev0] at hev
      exact hveq ▸ (Option.some.inj hev) ▸ hv0
    · have hkne : k ≠ k0 := by
        intro he
        apply hnd.1
        rw [← he]
        exact List.mem_map.mpr ⟨(k, ex), h2, rfl⟩
      rw [List.lookup, beq_eq_false_iff_ne.mpr hkne] at hlk
      exact ih out' hout' hnd.2 k ex env raw v h2 henv hev hlk

theorem validateLoop_ok {cfg : Config}
    (h : ∀ kv ∈ cfg, (sympify (pysanitize kv.2.formula)).isSome) :
    validateLoop cfg = Except.ok () := by
  induction cfg with
  | nil => rfl
  | cons a rest ih =>
    rw [validateLoop]
    obtain ⟨ex, hex⟩ := Option.isSome_iff_exists.mp (h a (List.mem_cons_self _ _))
    rw [hex]
    exact ih (fun x hx => h x (List.mem_cons_of_mem _ hx))

theorem validateLoop_first_error {cfg : Config} {k : String} {e : ConfigEntry}
    (hmem : (k, e) ∈ cfg) (hbad : sympify (pysanitize e.formula) = none) :
    ∃ e', (∃ k', (k', e') ∈ cfg) ∧ sympify (pysanitize e'.formula) = none ∧
      validateLoop cfg = Except.error (invalidFormulaMsg e'.formula) := by
  induction cfg with
  | nil => simp at hmem
  | cons a rest ih =>
    obtain ⟨k0, e0⟩ := a
    rw [validateLoop]
    cases h0 : sympify (pysanitize e0.formula) with
    | none => exact ⟨e0, ⟨k0, List.mem_cons_self _ _⟩, h0, rfl⟩
    | some ex0 =>
      have hmem' : (k, e) ∈ rest := by
        rcases List.mem_cons.mp hmem with h1 | h2
        · obtain ⟨_, he⟩ := Prod.mk.injEq .. ▸ h1
          rw [← he, hbad] at h0
          exact absurd h0 (by simp)
        · exact h2
      obtain ⟨e', ⟨k', hk'⟩, hbad', hval⟩ := ih hmem'
      exact ⟨e', ⟨k', List.mem_cons_of_mem _ hk'⟩, hbad', hval⟩

theorem compileLoop_ok_keys {args : List String} :
    ∀ cfg l, compileLoop args cfg = Except.ok l →
      l.map Prod.fst = cfg.map Prod.fst := by
  intro cfg
  induction cfg with
  | nil =>
    intro l h
    simp only [compileLoop, Except.ok.injEq] at h
    simp [← h]
  | cons a rest ih =>
    intro l h
    obtain ⟨k, e⟩ := a
    rw [compileLoop] at h
    split at h
    · cases h
    · split at h
      · split at h
        · have hl := Except.ok.inj h
          subst hl
          simp only [List.map_cons]
          rw [ih _ (by assumption)]
        · cases h
      · cases h

theorem compileLoop_ok_of {args : List String} (hnd : args.Nodup) :
    ∀ cfg : Config, (∀ kv ∈ cfg, (sympify (pysanitize kv.2.formula)).isSome) →
      ∃ l, compileLoop args cfg = Except.ok l ∧
        ∀ ke ∈ l, ∃ kv ∈ cfg, sympify (pysanitize kv.2.formula) = some ke.2 := by
  intro cfg
  induction cfg with
  | nil => exact fun _ => ⟨[], rfl, by simp⟩
  | cons a rest ih =>
    intro h
    obtain ⟨k, e⟩ := a
    obtain ⟨ex, hex⟩ := Option.isSome_iff_exists.mp (h (k, e) (List.mem_cons_self _ _))
    obtain ⟨l, hl, hspec⟩ := ih (fun x hx => h x (List.mem_cons_of_mem _ hx))
    refine ⟨(k, ex) :: l, ?_, ?_⟩
    · rw [compileLoop, hex]
      show (if args.Nodup then _ else _) = _
      rw [if_pos hnd, hl]
    · intro ke hke
      rcases List.mem_cons.mp hke with h1 | h2
      · exact ⟨(k, e), List.mem_cons_self _ _, by rw [h1, hex]⟩
      · obtain ⟨kv, hkv, hkv2⟩ := hspec ke h2
        exact ⟨kv, List.mem_cons_of_mem _ hkv, hkv2⟩

theorem compileLoop_nodup {args : List String} {k : String} {e : ConfigEntry}
    {rest : Config} {l : List (String × Expr)}
    (h : compileLoop args ((k, e) :: rest) = Except.ok l) : args.Nodup := by
  rw [compileLoop] at h
  split at h
  · cases h
  · split at h
    · assumption
    · cases h

theorem compileLoop_error_of_dup (args : List String) (k : String) (e : ConfigEntry)
    (rest : Config) (hnd : ¬ args.Nodup) :
    ∃ m, compileLoop args ((k, e) :: rest) = Except.error m := by
  rw [compileLoop]
  cases hs : sympify (pysanitize e.formula) with
  | none => exact ⟨invalidFormulaMsg e.formula, rfl⟩
  | some ex =>
    refine ⟨dupArgMsg, ?_⟩
    show (if args.Nodup then _ else _) = _
    rw [if_neg hnd]

theorem init_ok_elim {cfg : Config} {t : Transformer}
    (h : init cfg = Except.ok t) :
    t.input_list = declaredSyms cfg ∧ t.pv_mapping = cfg ∧
      compileLoop ((declaredSyms cfg).map pysanitize) cfg = Except.ok t.compiled := by
  rw [init] at h
  cases hv : validateLoop cfg with
  | error m => rw [hv] at h; cases h
  | ok u =>
    rw [hv] at h
    cases hc : compileLoop ((declaredSyms cfg).map pysanitize) cfg with
    | error m => rw [hc] at h; cases h
    | ok comp =>
      rw [hc] at h
      have heq := Except.ok.inj h
      refine ⟨?_, ?_, ?_⟩
      · rw [← heq]
      · rw [← heq]
      · rw [← heq]

theorem init_error_of_dup {cfg : Config} (hne : cfg ≠ [])
    (hnd : ¬ ((declaredSyms cfg).map pysanitize).Nodup) :
    ∃ m, init cfg = Except.error m := by
  rw [init]
  cases hv : validateLoop cfg with
  | error m => exact ⟨m, rfl⟩
  | ok u =>
    cases cfg with
    | nil => exact absurd rfl hne
    | cons a rest =>
      obtain ⟨k, e⟩ := a
      obtain ⟨m, hm⟩ :=
        compileLoop_error_of_dup ((declaredSyms ((k, e) :: rest)).map pysanitize)
          k e rest hnd
      exact ⟨m, by rw [hm]⟩

theorem normalizeVal_idem {v w : PyVal} (h : normalizeVal v = some w) :
    normalizeVal w = some w := by
  cases v with
  | num q =>
    rw [normalizeVal] at h
    rw [← Option.some.inj h, normalizeVal]
  | int n =>
    rw [normalizeVal] at h
    rw [← Option.some.inj h, normalizeVal]
  | arr s d =>
    rw [normalizeVal] at h
    rw [← Option.some.inj h, normalizeVal]
  | list l =>
    rw [normalizeVal] at h
    rw [← Option.some.inj h, normalizeVal]
  | str s => cases h

theorem normalizePass_of_isSome {b : Batch}
    (h : ∀ kv ∈ b, (normalizeVal kv.2.value).isSome) :
    normalizePass b = (normalizedBatch b, true) := by
  induction b with
  | nil => rfl
  | cons a rest ih =>
    obtain ⟨k, tv⟩ := a
    obtain ⟨v, hv⟩ := Option.isSome_iff_exists.mp (h (k, tv) (List.mem_cons_self _ _))
    have ihr := ih (fun x hx => h x (List.mem_cons_of_mem _ hx))
    simp only [normalizePass, hv, ihr, normalizedBatch, List.map_cons]
    simp [hv]

theorem normalizePass_idem {b : Batch} :
    ∀ c, normalizePass b = (c, true) → normalizePass c = (c, true) := by
  induction b with
  | nil =>
    intro c h
    obtain ⟨hc, _⟩ := Prod.mk.injEq .. ▸ h
    rw [← hc]
    rfl
  | cons a rest ih =>
    intro c h
    obtain ⟨k, tv⟩ := a
    cases hn : normalizeVal tv.value with
    | none =>
      rw [normalizePass, hn] at h
      exact absurd (congrArg Prod.snd h) (by simp)
    | some v =>
      rcases hrp : normalizePass rest with ⟨rest', ok⟩
      rw [normalizePass, hn, hrp] at h
      have hok : ok = true := by
        have := congrArg Prod.snd h
        simpa using this
      subst hok
      have hc : c = (k, { tv with value := v }) :: rest' := (congrArg Prod.fst h).symm
      subst hc
      have ihr := ih rest' hrp
      rw [normalizePass, normalizeVal_idem hn, ihr]

theorem init_ok_of {cfg : Config}
    (hval : ∀ kv ∈ cfg, (sympify (pysanitize kv.2.formula)).isSome)
    (hnd : ((declaredSyms cfg).map pysanitize).Nodup) :
    ∃ t, init cfg = Except.ok t ∧ t.input_list = declaredSyms cfg ∧
      t.pv_mapping = cfg := by
  obtain ⟨l, hl, _⟩ := compileLoop_ok_of hnd cfg hval
  exact ⟨⟨declaredSyms cfg, cfg, l⟩, by rw [init, validateLoop_ok hval, hl], rfl, rfl⟩

theorem str_data_append (a b : String) : (a ++ b).data = a.data ++ b.data := by
  cases a
  cases b
  rfl

theorem init_ok_nodup {cfg : Config} {t : Transformer}
    (h : init cfg = Except.ok t) (hne : declaredSyms cfg ≠ []) :
    ((declaredSyms cfg).map pysanitize).Nodup := by
  obtain ⟨-, -, hcomp⟩ := init_ok_elim h
  cases cfg with
  | nil => exact absurd rfl hne
  | cons a rest =>
    obtain ⟨k, e⟩ := a
    exact compileLoop_nodup hcomp

theorem mkEnv_lookup_none {il : List String} {pvs : List (String × PyVal)}
    {env : List (String × PyVal)} {s : String} (henv : mkEnv il pvs = some env)
    (hnot : s ∉ il.map pysanitize) : List.lookup s env = none := by
  rw [mkEnv] at henv
  obtain ⟨vals, _, hzip⟩ := Option.map_eq_some'.mp henv
  rw [← hzip]
  exact lookup_zip_none hnot

/-- C1: the claim states every entry of the returned mapping is a
`(value, timestamp)` pair obeying the max-timestamp/passthrough law.
The code attaches no timestamp at all: at this concrete input the
accepted call returns the entry `OUT ↦ 3` — a bare numeric value, with
no timestamp component for any law to constrain.  (The caller
`run.py` subscripts the result's entries with `"posixseconds"`, which
this bare value does not support, so the claim matches the intended
contract and the code drops the timestamps.) -/
theorem c1_transform_attaches_no_timestamp :
    init cfgC1 = Except.ok tC1 ∧
      transformFull tC1 batchC1
        = ([("X", ⟨PyVal.num 3, 100⟩)], some [("OUT", PyVal.num 3)]) := by
  constructor
  · decide
  · decide

/-- C2: the claim's configuration is accepted (the entry `B` without a
`symbols` key included) and the values 7.0 and 6.0 are computed, but
the returned mapping is `A ↦ 7, B ↦ 6` with bare values — not the
claimed `A ↦ (7.0, 200), B ↦ (6.0, 200)` records carrying
`posixseconds`. -/
theorem c2_example_scenario_bare_values :
    init cfgC2 = Except.ok tC2 ∧
      (transformFull tC2 batchC2).2
        = some [("A", PyVal.num 7), ("B", PyVal.num 6)] := by
  refine ⟨by decide, ?_⟩
  have h2 : (transformFull tC2 batchC2).2
      = some [("A", PyVal.num (3 + 4)), ("B", PyVal.num (2 * 3))] := rfl
  rw [h2]
  norm_num

/-- C3 counterexample: the claim promises, for batches in which every
declared symbol is present and well typed, a result with exactly one
entry per configured output.  For `cfgC3` (whose formula references the
undeclared symbol `W`) the construction succeeds, the single declared
symbol `X` is present with a well-typed scalar, yet the transform call
fails and returns no mapping at all. -/
theorem c3_counterexample :
    init cfgC3 = Except.ok tC3 ∧
      declaredSyms cfgC3 = ["X"] ∧
      List.lookup "X" batchC3 = some ⟨PyVal.num 1, 0⟩ ∧
      (transformFull tC3 batchC3).2 = none := by decide

/-- C3 (amended): for every constructed transformer and every batch of
well-typed numeric scalars in which every declared symbol is present
and, additionally, every symbol referenced by each compiled formula is
bound by the sanitized global symbol list, `transform` succeeds and
returns exactly one entry per configured output, in the declaration
order of the configuration. -/
theorem c3_amended {cfg : Config} {t : Transformer} {b : Batch}
    (hinit : init cfg = Except.ok t)
    (hscalar : ∀ kv ∈ b, ∃ q : ℚ, normalizeVal kv.2.value = some (PyVal.num q))
    (hpresent : ∀ s ∈ t.input_list, s ∈ b.map Prod.fst)
    (hbound : ∀ ke ∈ t.compiled, ∀ s ∈ exprSyms ke.2,
      s ∈ t.input_list.map pysanitize) :
    ∃ out, (transformFull t b).2 = some out ∧
      out.map Prod.fst = cfg.map Prod.fst := by
  have hsome : ∀ kv ∈ b, (normalizeVal kv.2.value).isSome := by
    intro kv hkv
    obtain ⟨q, hq⟩ := hscalar kv hkv
    rw [hq]
    rfl
  have hnp := normalizePass_of_isSome hsome
  have htf : transformFull t b
      = (normalizedBatch b, runTransform t (normalizedBatch b)) := by
    rw [transformFull, hnp]
    rfl
  have hpvs2 : pvsRenamed (normalizedBatch b) = b.map (fun kv =>
      (pysanitize kv.1, (normalizeVal kv.2.value).getD kv.2.value)) := by
    rw [pvsRenamed, normalizedBatch, List.map_map]
    rfl
  have hval : ∀ kv ∈ pvsRenamed (normalizedBatch b), ∃ q : ℚ, kv.2 = PyVal.num q := by
    intro kv hkv
    rw [hpvs2] at hkv
    obtain ⟨kv0, hkv0, hkveq⟩ := List.mem_map.mp hkv
    obtain ⟨q, hq⟩ := hscalar kv0 hkv0
    refine ⟨q, ?_⟩
    rw [← hkveq]
    simp [hq]
  have hkeys : (pvsRenamed (normalizedBatch b)).map Prod.fst
      = (b.map Prod.fst).map pysanitize := by
    rw [hpvs2, List.map_map, List.map_map]
    rfl
  have hlookup : ∀ s ∈ t.input_list,
      ∃ v, lookupLast (pvsRenamed (normalizedBatch b)) (pysanitize s) = some v ∧
        ∃ q : ℚ, v = PyVal.num q := by
    intro s hs
    have hmemk : pysanitize s ∈ (pvsRenamed (normalizedBatch b)).map Prod.fst := by
      rw [hkeys]
      exact List.mem_map_of_mem pysanitize (hpresent s hs)
    have hmemk2 : pysanitize s ∈ (pvsRenamed (normalizedBatch b)).reverse.map Prod.fst := by
      rw [List.map_reverse, List.mem_reverse]
      exact hmemk
    obtain ⟨v, hv⟩ := lookup_mem_keys hmemk2
    refine ⟨v, hv, ?_⟩
    exact hval (pysanitize s, v) (List.mem_reverse.mp (lookup_some_mem hv))
  obtain ⟨vals, hvals, hlen, hP⟩ :=
    mapM_option_spec (fun s => lookupLast (pvsRenamed (normalizedBatch b)) (pysanitize s))
      (fun v => ∃ q : ℚ, v = PyVal.num q) t.input_list
      (fun s hs => hlookup s hs)
  have henv : mkEnv t.input_list (pvsRenamed (normalizedBatch b))
      = some ((t.input_list.map pysanitize).zip vals) := by
    rw [mkEnv, mkArgs, hvals]
    rfl
  have henvlk : ∀ s' ∈ t.input_list.map pysanitize,
      ∃ q : ℚ, List.lookup s' ((t.input_list.map pysanitize).zip vals)
        = some (PyVal.num q) := by
    intro s' hs'
    obtain ⟨v, hv, hvm⟩ := lookup_zip_mem hs' (by rw [List.length_map, hlen])
    obtain ⟨q, hq⟩ := hP v hvm
    exact ⟨q, by rw [hv, hq]⟩
  obtain ⟨out, hout⟩ := evalLoop_total henv t.compiled (fun ke hke => by
    obtain ⟨q, hq⟩ := evalExpr_scalar ke.2 (fun s hsym =>
      henvlk s (hbound ke hke s hsym))
    exact ⟨PyVal.num q, PyVal.num q, hq, rfl⟩)
  refine ⟨out, ?_, ?_⟩
  · rw [htf]
    show runTransform t (normalizedBatch b) = some out
    rw [runTransform]
    exact hout
  · rw [evalLoop_keys t.compiled out hout]
    exact compileLoop_ok_keys cfg t.compiled (init_ok_elim hinit).2.2

/-- C3 witness: the amended statement applied to a concrete
configuration (including an entry without a `symbols` key, as in the
spec's example) and a concrete scalar batch. -/
theorem c3_amended_witness :
    ∃ out, (transformFull tC3w batchC3w).2 = some out ∧
      out.map Prod.fst = cfgC3w.map Prod.fst := by
  refine c3_amended (by decide) ?_ (by decide) (by decide)
  intro kv hkv
  have hkv2 : kv = ("X", ⟨PyVal.num 2, 5⟩) := List.mem_singleton.mp hkv
  rw [hkv2]
  exact ⟨2, rfl⟩

/-- C4 counterexample: the claim promises a construction-time error for
a formula referencing the undeclared symbol `Z`; instead construction
succeeds, and the mismatch only surfaces when `transform` is later
called. -/
theorem c4_counterexample :
    init cfgC4 = Except.ok tC4 ∧ (transformFull tC4 batchC4).2 = none := by decide

/-- C4 (amended): construction checks only that every formula parses
and that the sanitized global symbol list has no duplicates — it never
compares a formula's symbols with the declared ones, so any
configuration passing those two checks constructs successfully even
with extra or unresolved formula symbols; and whenever some compiled
formula references a symbol not bound by the sanitized global symbol
list, every later `transform` call fails (the generated function hits
an unbound name). -/
theorem c4_amended :
    (∀ cfg : Config, (∀ kv ∈ cfg, (sympify (pysanitize kv.2.formula)).isSome) →
      ((declaredSyms cfg).map pysanitize).Nodup → ∃ t, init cfg = Except.ok t) ∧
    (∀ (t : Transformer) (b : Batch) (k : String) (ex : Expr) (s : String),
      (k, ex) ∈ t.compiled → s ∈ exprSyms ex →
      s ∉ t.input_list.map pysanitize → (transformFull t b).2 = none) := by
  constructor
  · intro cfg hval hnd
    obtain ⟨t, h1, -, -⟩ := init_ok_of hval hnd
    exact ⟨t, h1⟩
  · intro t b k ex s hmem hsym hnot
    rcases hnp : normalizePass b with ⟨b0, ok⟩
    have htf : transformFull t b
        = if ok then (b0, runTransform t b0) else (b0, none) := by
      rw [transformFull, hnp]
    cases ok with
    | false =>
      rw [htf]
      rfl
    | true =>
      rw [htf]
      show runTransform t b0 = none
      rw [runTransform]
      exact evalLoop_fails (fun env henv =>
        evalExpr_unbound (mkEnv_lookup_none henv hnot) ex hsym) t.compiled hmem

/-- C4 witness: the amended statement applied to the concrete
configuration with the unresolved symbol `Z`. -/
theorem c4_amended_witness :
    (∃ t, init cfgC4 = Except.ok t) ∧ (transformFull tC4 batchC4).2 = none := by
  constructor
  · exact c4_amended.1 cfgC4 (by decide) (by decide)
  · exact c4_amended.2 tC4 batchC4 "A" (Expr.sym "Z") "Z" (by decide) (by decide)
      (by decide)

/-- C5 counterexample: the claim promises that only the trailing
length-1 axis is removed and all other axes, including non-trailing
length-1 axes, are preserved.  For an evaluator result of shape
`(1, 2, 1)` the code returns shape `(2)` — numpy `squeeze()` removed
the leading length-1 axis as well — whereas the claim demands
`(1, 2)`. -/
theorem c5_counterexample :
    init cfgC5 = Except.ok tC5 ∧
      (transformFull tC5 batchC5).2 = some [("A", PyVal.arr [2] [5, 6])] ∧
      PyVal.arr [2] [5, 6] ≠ PyVal.arr [1, 2] [5, 6] := by decide

/-- C5 (amended): every value of a successful transform result is the
shaping of its formula's raw evaluator result, where the shaping law
is: an array whose last axis has extent 1 loses EVERY axis of extent 1
(numpy `squeeze()` with no axis argument); an array whose last axis
has extent other than 1 is returned unchanged (even if earlier axes
have extent 1); a numeric scalar is coerced with `float(...)`. -/
theorem c5_amended :
    (∀ (t : Transformer) (b : Batch) out k ex env raw v,
      runTransform t b = some out →
      (k, ex) ∈ t.compiled → (t.compiled.map Prod.fst).Nodup →
      mkEnv t.input_list (pvsRenamed b) = some env →
      evalExpr env ex = some raw → List.lookup k out = some v →
      shapeResult raw = some v) ∧
    (∀ (s : List Nat) (d : List ℚ), s.getLast? = some 1 →
      shapeResult (PyVal.arr s d)
        = some (PyVal.arr (s.filter (fun n => n ≠ 1)) d)) ∧
    (∀ (s : List Nat) (d : List ℚ) (m : Nat), s.getLast? = some m → m ≠ 1 →
      shapeResult (PyVal.arr s d) = some (PyVal.arr s d)) ∧
    (∀ q : ℚ, shapeResult (PyVal.num q) = some (PyVal.num q)) := by
  refine ⟨?_, ?_, ?_, ?_⟩
  · intro t b out k ex env raw v hrun hmem hnd henv hev hlk
    exact evalLoop_lookup t.compiled out hrun hnd k ex env raw v hmem henv hev hlk
  · intro s d hlast
    rw [shapeResult, hlast]
    simp
  · intro s d m hlast hm
    rw [shapeResult, hlast]
    simp [hm]
  · intro q
    rfl

/-- C5 witness: the amended statement applied to concrete evaluator
results — through a full transform call for shape `(3, 1)` (squeezed to
`(3)`), and at the shaping step for shapes `(1, 2, 1)` (squeezed to
`(2)`), `(2, 3)` (unchanged) and a scalar. -/
theorem c5_amended_witness :
    shapeResult (PyVal.arr [3, 1] [7, 8, 9]) = some (PyVal.arr [3] [7, 8, 9]) ∧
      shapeResult (PyVal.arr [1, 2, 1] [5, 6]) = some (PyVal.arr [2] [5, 6]) ∧
      shapeResult (PyVal.arr [2, 3] [9, 9, 9, 9, 9, 9])
        = some (PyVal.arr [2, 3] [9, 9, 9, 9, 9, 9]) ∧
      shapeResult (PyVal.num 9) = some (PyVal.num 9) := by
  refine ⟨?_, ?_, ?_, ?_⟩
  · exact c5_amended.1 tC5w batchC5w [("B", PyVal.arr [3] [7, 8, 9])] "B"
      (Expr.sym "Y") [("Y", PyVal.arr [3, 1] [7, 8, 9])]
      (PyVal.arr [3, 1] [7, 8, 9]) (PyVal.arr [3] [7, 8, 9])
      (by decide) (by decide) (by decide) (by decide) (by decide) (by decide)
  · exact c5_amended.2.1 [1, 2, 1] [5, 6] (by decide)
  · exact c5_amended.2.2.1 [2, 3] [9, 9, 9, 9, 9, 9] 3 (by decide) (by decide)
  · exact c5_amended.2.2.2 9

/-- C6: on every successfully constructed transformer the sanitization
is injective on the declared signal names in use (so original and
sanitized names determine each other there), and whenever two distinct
declared signal names collide after sanitization, construction fails
with an error (the duplicated parameter of the generated evaluator, or
an earlier validation failure). -/
theorem c6_sanitization_bijective_collision_fatal :
    (∀ (cfg : Config) (t : Transformer), init cfg = Except.ok t →
      ∀ s ∈ t.input_list, ∀ u ∈ t.input_list,
        pysanitize s = pysanitize u → s = u) ∧
    (∀ (cfg : Config) (s u : String), s ∈ declaredSyms cfg →
      u ∈ declaredSyms cfg → s ≠ u → pysanitize s = pysanitize u →
      ∃ m, init cfg = Except.error m) := by
  constructor
  · intro cfg t hinit s hs u hu hsan
    obtain ⟨hil, -, -⟩ := init_ok_elim hinit
    rw [hil] at hs hu
    have hne : declaredSyms cfg ≠ [] := by
      intro h0
      rw [h0] at hs
      exact absurd hs (List.not_mem_nil s)
    exact List.inj_on_of_nodup_map (init_ok_nodup hinit hne) hs hu hsan
  · intro cfg s u hs hu hne hsan
    have hcfgne : cfg ≠ [] := by
      intro h0
      rw [h0] at hs
      exact absurd hs (List.not_mem_nil s)
    apply init_error_of_dup hcfgne
    intro hnd
    exact hne (List.inj_on_of_nodup_map hnd hs hu hsan)

/-- C6 witness: injectivity applied to a constructed transformer whose
signal name contains `:`, and the collision branch applied to the
colliding pair `A:B` / `A_B`. -/
theorem c6_witness :
    "A:B" = "A:B" ∧ (∃ m, init cfgC6b = Except.error m) := by
  constructor
  · exact c6_sanitization_bijective_collision_fatal.1 cfgC6a tC6a (by decide)
      "A:B" (by decide) "A:B" (by decide) rfl
  · exact c6_sanitization_bijective_collision_fatal.2 cfgC6b "A:B" "A_B"
      (by decide) (by decide) (by decide) (by decide)

/-- C7 counterexample: for the unparseable formula `((` belonging to
output `OUT1`, the construction error message contains the formula
text but NOT the output name, contradicting the claim that both are
reported. -/
theorem c7_counterexample :
    init cfgC7 = Except.error (invalidFormulaMsg "((") ∧
      List.IsInfix "((".data (invalidFormulaMsg "((").data ∧
      ¬ List.IsInfix "OUT1".data (invalidFormulaMsg "((").data := by decide

/-- C7 (amended): whenever some entry's formula fails to parse,
construction fails as a whole (no transformer is produced) with the
error of the first failing formula in declaration order, and the error
message contains that formula's text — but not the output name. -/
theorem c7_amended (cfg : Config) (k : String) (e : ConfigEntry)
    (hmem : (k, e) ∈ cfg) (hbad : sympify (pysanitize e.formula) = none) :
    ∃ e', (∃ k', (k', e') ∈ cfg) ∧ sympify (pysanitize e'.formula) = none ∧
      init cfg = Except.error (invalidFormulaMsg e'.formula) ∧
      List.IsInfix e'.formula.data (invalidFormulaMsg e'.formula).data := by
  obtain ⟨e', hk', hbad', hval⟩ := validateLoop_first_error hmem hbad
  refine ⟨e', hk', hbad', by rw [init, hval], ?_⟩
  refine ⟨"Invalid formula: ".data,
    (": SympifyError: could not parse " ++ pysanitize e'.formula).data, ?_⟩
  rw [invalidFormulaMsg]
  simp [str_data_append, List.append_assoc]

/-- C7 witness: the amended statement applied to the configuration with
the unparseable formula `((`. -/
theorem c7_amended_witness :
    ∃ e', (∃ k', (k', e') ∈ cfgC7) ∧ sympify (pysanitize e'.formula) = none ∧
      init cfgC7 = Except.error (invalidFormulaMsg e'.formula) ∧
      List.IsInfix e'.formula.data (invalidFormulaMsg e'.formula).data :=
  c7_amended cfgC7 "OUT1" ⟨"((", some ["X"]⟩ (by decide) (by decide)

/-- C8 counterexample: the claim promises that a signal declared in the
symbols lists of more than one entry is harmless and construction
succeeds; in fact construction fails — the duplicated name reaches the
compiled evaluator's parameter list twice, a `SyntaxError`. -/
theorem c8_counterexample :
    init cfgC8 = Except.error dupArgMsg := by decide

/-- C8 (amended): the global input-symbol list is the order-preserving
concatenation of the declared symbols lists (duplicates kept), and an
entry lacking `symbols` is accepted; but a signal name declared more
than once across the configuration makes construction FAIL, because
the sanitized global symbol list then has duplicates. -/
theorem c8_amended :
    (∀ (cfg : Config) (s : String), 2 ≤ (declaredSyms cfg).count s →
      ∃ m, init cfg = Except.error m) ∧
    (∀ cfg : Config, (∀ kv ∈ cfg, (sympify (pysanitize kv.2.formula)).isSome) →
      ((declaredSyms cfg).map pysanitize).Nodup →
      ∃ t, init cfg = Except.ok t ∧ t.input_list = declaredSyms cfg) := by
  constructor
  · intro cfg s hcount
    have hne : cfg ≠ [] := by
      intro h0
      rw [h0] at hcount
      simp [declaredSyms] at hcount
    apply init_error_of_dup hne
    intro hnd
    have h1 : (declaredSyms cfg).count s ≤ 1 :=
      List.nodup_iff_count_le_one.mp hnd.of_map s
    omega
  · intro cfg hval hnd
    obtain ⟨t, h1, h2, -⟩ := init_ok_of hval hnd
    exact ⟨t, h1, h2⟩

/-- C8 witness: the duplicate-declaration branch applied to `cfgC8`,
and the success branch applied to the example configuration whose
entry `B` lacks a `symbols` key. -/
theorem c8_amended_witness :
    (∃ m, init cfgC8 = Except.error m) ∧
      (∃ t, init cfgC2 = Except.ok t ∧ t.input_list = declaredSyms cfgC2) := by
  constructor
  · exact c8_amended.1 cfgC8 "X" (by decide)
  · exact c8_amended.2 cfgC2 (by decide) (by decide)

/-- C9: a second `transform` call on the batch the first (successful)
call left behind returns the same result: the transformer holds no
state mutated by `transform`, and the in-place normalization is
idempotent, so the normalized batch re-normalizes to itself. -/
theorem c9_transform_idempotent {t : Transformer} {b b' : Batch}
    {out : List (String × PyVal)} (h : transformFull t b = (b', some out)) :
    transformFull t b' = (b', some out) := by
  rcases hnp : normalizePass b with ⟨b0, ok⟩
  have htf : transformFull t b
      = if ok then (b0, runTransform t b0) else (b0, none) := by
    rw [transformFull, hnp]
  rw [htf] at h
  cases ok with
  | false =>
    have h2 : ((b0, none) : Batch × Option (List (String × PyVal)))
        = (b', some out) := h
    exact absurd (congrArg Prod.snd h2) (by simp)
  | true =>
    have h2 : ((b0, runTransform t b0) : Batch × Option (List (String × PyVal)))
        = (b', some out) := h
    have hb : b0 = b' := congrArg Prod.fst h2
    have hr : runTransform t b0 = some out := congrArg Prod.snd h2
    subst hb
    have hidem := normalizePass_idem b0 hnp
    rw [transformFull, hidem]
    show (b0, runTransform t b0) = (b0, some out)
    rw [hr]

/-- C9 witness: the idempotence statement applied to a concrete
passthrough transformer and batch. -/
theorem c9_witness :
    transformFull tC9 batchC9 = (batchC9, some [("P", PyVal.num 4)]) :=
  c9_transform_idempotent (t := tC9) (b := batchC9) (by decide)

/-- C10: for every batch of well-typed values, `transform` leaves the
caller's batch with every `"value"` field overwritten by its coerced
float (array) before evaluation — the evaluation then runs on that
mutated batch — and the first conjunct holds whether or not the
result component signals a failure, so the mutation persists when the
call subsequently fails. -/
theorem c10_transform_mutates_batch (t : Transformer) (b : Batch)
    (h : ∀ kv ∈ b, (normalizeVal kv.2.value).isSome) :
    (transformFull t b).1 = normalizedBatch b ∧
      (transformFull t b).2 = runTransform t (normalizedBatch b) := by
  have hnp := normalizePass_of_isSome h
  rw [transformFull, hnp]
  exact ⟨rfl, rfl⟩

/-- C10 witness: the mutation statement applied to a batch holding a
Python `int` (visibly coerced in place) and a transformer whose
evaluation fails — the mutated batch persists while the call's result
is a failure. -/
theorem c10_witness :
    ((transformFull tC10 batchC10).1 = normalizedBatch batchC10 ∧
      (transformFull tC10 batchC10).2 = runTransform tC10 (normalizedBatch batchC10)) ∧
    (transformFull tC10 batchC10).2 = none :=
  ⟨c10_transform_mutates_batch tC10 batchC10 (by decide), by rfl⟩

end InputPV
